import Mathlib

/-!
Shallow embedding of the speech-transcription core of the Zoom-Video-SDK
repository (classes `TranscriptionManager`, `SpeechDetection`, `AudioCapture`
from the source), together with theorems settling the specification claims.

Strings are modelled as `List Char`; JavaScript regular-expression tests with
the `i` flag and `\b` word boundaries are modelled by explicit scanners over
the lower-cased character list, and `String.prototype.split(/\s+/)` is
modelled by an explicit splitter that reproduces JavaScript's boundary
behaviour (an empty field before a leading whitespace run, after a trailing
one, and `[""]` on the empty string).
-/

namespace ZoomSDK

/-- JavaScript whitespace (the ASCII part of `\s`, which is all that the
source's inputs can contain): space, tab, line feed, vertical tab, form feed,
carriage return. -/
def isWs (c : Char) : Bool :=
  c == ' ' || c == '\t' || c == '\n' || c == '\r' || c == '\x0b' || c == '\x0c'

/-- JavaScript word character `\w` = `[A-Za-z0-9_]`, the class that decides a
`\b` word boundary. -/
def isWordChar (c : Char) : Bool :=
  ('a' ≤ c && c ≤ 'z') || ('A' ≤ c && c ≤ 'Z') || ('0' ≤ c && c ≤ '9') || c == '_'

/-- `String.prototype.trim()`. -/
def jsTrim (t : List Char) : List Char :=
  ((t.dropWhile isWs).reverse.dropWhile isWs).reverse

/-- Lower-case a character list, modelling `toLowerCase()` / the regex `i`
flag on the ASCII inputs of the source. -/
def lower (t : List Char) : List Char := t.map Char.toLower

/-- Does the word-boundary pattern `pat` (a literal word or phrase starting
and ending in a word character, e.g. the source's `/\b(start|stop|...)\b/`
alternatives) occur in `txt`?  `prevW` records whether the character just
before the current scan position is a word character; a match at a position
needs a non-word (or absent) character on both sides of the literal. -/
def wordOccurAux (pat : List Char) : Bool → List Char → Bool
  | _, [] => false
  | prevW, c :: rest =>
    (!prevW && pat.isPrefixOf (c :: rest) &&
      (match (c :: rest).drop pat.length with
       | [] => true
       | d :: _ => !isWordChar d)) ||
    wordOccurAux pat (isWordChar c) rest

/-- `/\bpat\b/i.test(text)`: scan the lower-cased text from the start of
string (which counts as a boundary). -/
def testWord (pat : List Char) (t : List Char) : Bool :=
  wordOccurAux pat false (lower t)

/-- Does any of the listed whole words occur (case-insensitively)? -/
def testWords (pats : List (List Char)) (t : List Char) : Bool :=
  pats.any (fun p => testWord p t)

/-- The alternatives of the source's first question pattern
`/\b(what|when|where|who|why|how|can|could|would|should|is|are|do|does|did)\b/i`. -/
def questionWords1 : List (List Char) :=
  ["what".toList, "when".toList, "where".toList, "who".toList, "why".toList,
   "how".toList, "can".toList, "could".toList, "would".toList, "should".toList,
   "is".toList, "are".toList, "do".toList, "does".toList, "did".toList]

/-- The alternatives of the source's third question pattern
`/\b(please|tell me|explain|describe)\b/i`. -/
def questionWords3 : List (List Char) :=
  ["please".toList, "tell me".toList, "explain".toList, "describe".toList]

/-- `this.questionPatterns.some(pattern => pattern.test(text))`: the second
pattern is the bare `/\?/`. -/
def questionTest (t : List Char) : Bool :=
  testWords questionWords1 t || t.contains '?' || testWords questionWords3 t

/-- The alternatives of the source's two command patterns
`/\b(start|stop|begin|end|pause|resume|next|previous)\b/i` and
`/\b(show|hide|display|open|close)\b/i`. -/
def commandWords : List (List Char) :=
  ["start".toList, "stop".toList, "begin".toList, "end".toList, "pause".toList,
   "resume".toList, "next".toList, "previous".toList,
   "show".toList, "hide".toList, "display".toList, "open".toList, "close".toList]

/-- `this.commandPatterns.some(pattern => pattern.test(text))`. -/
def commandTest (t : List Char) : Bool :=
  testWords commandWords t

/-- Positive-emotion lexicon `/\b(great|good|excellent|wonderful|amazing|fantastic|love|like)\b/i`. -/
def positiveWords : List (List Char) :=
  ["great".toList, "good".toList, "excellent".toList, "wonderful".toList,
   "amazing".toList, "fantastic".toList, "love".toList, "like".toList]

/-- Negative-emotion lexicon `/\b(bad|terrible|awful|hate|dislike|worst|horrible)\b/i`. -/
def negativeWords : List (List Char) :=
  ["bad".toList, "terrible".toList, "awful".toList, "hate".toList,
   "dislike".toList, "worst".toList, "horrible".toList]

/-- `this.emotionPatterns` as the ordered sequence of (label, matcher) pairs
that `Object.entries` yields in insertion order: positive, negative,
question (`/\?/`), exclamation (`/!/`). -/
def emotionEntries : List (String × (List Char → Bool)) :=
  [("positive", fun t => testWords positiveWords t),
   ("negative", fun t => testWords negativeWords t),
   ("question", fun t => t.contains '?'),
   ("exclamation", fun t => t.contains '!')]

/-- The `for … of Object.entries(this.emotionPatterns)` loop with `break`:
the first entry whose patterns match wins; the initial value is `neutral`. -/
def emotionOf (t : List Char) : String :=
  ((emotionEntries.find? (fun e => e.2 t)).map (fun e => e.1)).getD "neutral"

/-- `text.split(/\s+/)` as JavaScript evaluates it: split at maximal
whitespace runs; a leading run (or the empty string) yields an empty first
field, a trailing run an empty last field.  `lastWs` records whether the
previous character was part of the whitespace run currently being consumed. -/
def jsSplitAux : List Char → Bool → List Char → List (List Char)
  | [], _, acc => [acc.reverse]
  | c :: rest, lastWs, acc =>
    if isWs c then
      if lastWs then jsSplitAux rest true acc
      else acc.reverse :: jsSplitAux rest true []
    else jsSplitAux rest false (c :: acc)

/-- `text.split(/\s+/)`. -/
def jsSplitWs (t : List Char) : List (List Char) :=
  jsSplitAux t false []

/-- The result record built by `SpeechDetection.analyze`. -/
structure ClassificationResult where
  hasSpeech : Bool
  type : String
  isQuestion : Bool
  isCommand : Bool
  emotion : String
  keywords : List (List Char)
  wordCount : Nat
deriving Repr, DecidableEq

/-- `SpeechDetection.analyze(text)`, translated statement by statement from
the source: the initial defaults, the question check (assigning
`type = 'question'`), then the command check (assigning `type = 'command'`),
the emotion loop, and the keyword extraction
`text.toLowerCase().split(/\s+/).filter(word => word.length > 4)`;
`wordCount` is `text.split(/\s+/).length` on the original text. -/
def analyze (text : String) : ClassificationResult :=
  let t := text.toList
  let isQ := questionTest t
  let isC := commandTest t
  { hasSpeech := (jsTrim t).length > 0
    type := if isC then "command" else if isQ then "question" else "statement"
    isQuestion := isQ
    isCommand := isC
    emotion := emotionOf t
    keywords := (jsSplitWs (lower t)).filter (fun w => w.length > 4)
    wordCount := (jsSplitWs t).length }

/-- A persisted transcript record, as built by
`TranscriptionManager.handleFinalTranscript`: `id` is `Date.now()` (the
wall-clock millisecond reading), `timestamp` the same instant rendered as an
ISO string (kept abstract as the same clock value), `confidence` the fixed
`1.0`. -/
structure Transcription where
  id : Nat
  user : String
  text : String
  timestamp : Nat
  confidence : ℚ
deriving Repr, DecidableEq

/-- The mutable fields of `TranscriptionManager` that the transcript and
restart logic touches.  `recognitionPresent` models `this.recognition !== null`. -/
structure TMState where
  recognitionPresent : Bool
  isTranscribing : Bool
  shouldContinue : Bool
  currentUser : Option String
  transcriptions : List Transcription
  currentTranscript : String
deriving Repr, DecidableEq

/-- The constructor of `TranscriptionManager`. -/
def TMState.init : TMState :=
  { recognitionPresent := false, isTranscribing := false, shouldContinue := false,
    currentUser := none, transcriptions := [], currentTranscript := "" }

/-- `handleFinalTranscript(transcript)` at clock reading `now` (the value
`Date.now()` would return during the call): rejects when the trimmed text is
falsy (empty), otherwise pushes one record and fires `onTranscript` with it
(the returned `Option Transcription` is the callback payload, `none` when no
callback fires). -/
def handleFinalTranscript (now : Nat) (s : TMState) (transcript : String) :
    TMState × Option Transcription :=
  if jsTrim transcript.toList = [] then (s, none)
  else
    let tr : Transcription :=
      { id := now, user := s.currentUser.getD "Unknown", text := transcript,
        timestamp := now, confidence := 1 }
    ({ s with transcriptions := s.transcriptions ++ [tr] }, some tr)

/-- `stop()`: clears the continuation flag, asks the engine to halt when it
is present and transcribing, and clears `isTranscribing`. -/
def TMState.stop (s : TMState) : TMState :=
  { s with shouldContinue := false, isTranscribing := false }

/-- The `recognition.onend` handler: clears `isTranscribing` and, when the
continuation flag is still set, arms exactly one delayed `setTimeout`
restart; the returned number counts the restarts scheduled by this event. -/
def TMState.onEnd (s : TMState) : TMState × Nat :=
  ({ s with isTranscribing := false }, if s.shouldContinue then 1 else 0)

/-- The external events of the restart policy that can occur between a
`start` and the next `start`: a caller's `stop()` and the engine's end
event. -/
inductive TMEvent where
  | stopCall
  | engineEnd
deriving Repr, DecidableEq

/-- Run one event against the manager state, reporting how many restarts the
event scheduled. -/
def tmStep (s : TMState) : TMEvent → TMState × Nat
  | .stopCall => (s.stop, 0)
  | .engineEnd => s.onEnd

/-- Run a sequence of events, collecting the total number of scheduled
restarts. -/
def tmRun (s : TMState) : List TMEvent → TMState × Nat
  | [] => (s, 0)
  | e :: es =>
    ((tmRun (tmStep s e).1 es).1, (tmStep s e).2 + (tmRun (tmStep s e).1 es).2)

/-- State of `AudioCapture`: `streamTracks` is `none` when
`this.mediaStream === null`, otherwise the stopped-flags of the stream's
tracks; `audioContext` and `analyser` model whether those handles are
non-null. -/
structure ACState where
  streamTracks : Option (List Bool)
  audioContext : Bool
  analyser : Bool
  isCapturing : Bool
deriving Repr, DecidableEq

/-- The constructor of `AudioCapture`: every handle null, not capturing. -/
def ACState.init : ACState :=
  { streamTracks := none, audioContext := false, analyser := false, isCapturing := false }

/-- A successful `start()` with a stream of `n` live tracks: acquires the
stream, builds the context and analyser, sets `isCapturing = true` (the first
`monitorAudioLevels` tick is then already scheduled). -/
def ACState.start (n : Nat) (_s : ACState) : ACState :=
  { streamTracks := some (List.replicate n false), audioContext := true,
    analyser := true, isCapturing := true }

/-- One `monitorAudioLevels` tick, given the frequency-bin magnitudes `bins`
the analyser would deliver: if `isCapturing` is false it returns before any
work — no callback, no rescheduling; otherwise it computes the arithmetic
mean, fires `onAudioData(mean)` when `mean > 30`, and reschedules itself.
Returns (state, payload of the fired callback if any, whether a next tick was
scheduled). -/
def monitorTick (s : ACState) (bins : List Nat) : ACState × Option ℚ × Bool :=
  if !s.isCapturing then (s, none, false)
  else
    let avg : ℚ := (bins.sum : ℚ) / (bins.length : ℚ)
    (s, if avg > 30 then some avg else none, true)

/-- `stop()`: clears `isCapturing`; when a stream is held (`if
(this.mediaStream)`), stops every track and nulls the handle, releasing
nothing otherwise; the `if (this.audioContext)` guard closes and nulls the
context, which on the presence flag amounts to clearing it (clearing an
already-null handle is the identity).  The second component is the final
stopped-state of the tracks the monitor owned (the track objects outlive the
nulled handle). -/
def ACState.stop (s : ACState) : ACState × List Bool :=
  match s.streamTracks with
  | none => ({ s with isCapturing := false, audioContext := false }, [])
  | some tracks =>
      ({ s with isCapturing := false, streamTracks := none, audioContext := false },
       tracks.map (fun _ => true))

/-- Run the pending ticks (each with its environment-supplied bin data)
against a state, collecting every fired `onAudioData` payload. -/
def runTicks (s : ACState) : List (List Nat) → List ℚ
  | [] => []
  | bins :: rest => (monitorTick s bins).2.1.toList ++ runTicks (monitorTick s bins).1 rest

/-- `Modelled from the spec:` "whitespace-delimited tokens" / "split on runs
of whitespace": the maximal non-whitespace runs of the text, in order, with
no empty fields.  This is the spec-side splitter that the source's
`split(/\s+/)` is compared against. -/
def splitTokensAux : List Char → List Char → List (List Char)
  | [], acc => if acc.isEmpty then [] else [acc.reverse]
  | c :: rest, acc =>
    if isWs c then
      if acc.isEmpty then splitTokensAux rest [] else acc.reverse :: splitTokensAux rest []
    else splitTokensAux rest (c :: acc)

/-- The whitespace-delimited tokens of a text (spec-side notion). -/
def splitTokens (t : List Char) : List (List Char) := splitTokensAux t []

/-- The number of whitespace-delimited tokens of a text (spec-side notion). -/
def tokenCount (t : List Char) : Nat := (splitTokens t).length

end ZoomSDK

namespace ZoomSDK


/-! ### Helper lemmas -/

/-- The continuation flag after a run of stop/end events: it survives exactly
when it was set and no `stop()` occurred. -/
lemma tmRun_shouldContinue (es : List TMEvent) :
    ∀ s : TMState,
      (tmRun s es).1.shouldContinue =
        (s.shouldContinue && decide (TMEvent.stopCall ∉ es)) := by
  induction es with
  | nil => intro s; simp [tmRun]
  | cons e rest ih =>
    intro s
    cases e with
    | stopCall => simp [tmRun, tmStep, TMState.stop, ih]
    | engineEnd => simp [tmRun, tmStep, TMState.onEnd, ih]

/-- With the continuation flag set, `n` consecutive engine end events
schedule `n` restarts (the policy counts no retries). -/
lemma tmRun_ends (n : Nat) :
    ∀ s : TMState, s.shouldContinue = true →
      (tmRun s (List.replicate n TMEvent.engineEnd)).2 = n := by
  induction n with
  | zero => intro s _; simp [tmRun]
  | succ k ih =>
    intro s hs
    simp [List.replicate_succ, tmRun, tmStep, TMState.onEnd, hs]
    rw [ih _ rfl]
    omega

/-- `stop()` leaves the monitor not capturing. -/
lemma ACState.stop_not_capturing (s : ACState) : (ACState.stop s).1.isCapturing = false := by
  unfold ACState.stop
  cases s.streamTracks <;> rfl

/-- A tick in a non-capturing state does no work: no callback, no
rescheduling, no state change. -/
lemma monitorTick_not_capturing {s : ACState} (h : s.isCapturing = false)
    (bins : List Nat) : monitorTick s bins = (s, none, false) := by
  simp [monitorTick, h]

/-- All pending ticks after the flag is cleared emit nothing. -/
lemma runTicks_not_capturing {s : ACState} (h : s.isCapturing = false) :
    ∀ pending : List (List Nat), runTicks s pending = [] := by
  intro pending
  induction pending with
  | nil => rfl
  | cons bins rest ih => simp [runTicks, monitorTick_not_capturing h, ih]

/-- Lower-casing a whitespace character is the identity. -/
lemma isWs_toLower {c : Char} (h : isWs c = true) : c.toLower = c := by
  simp only [isWs, Bool.or_eq_true, beq_iff_eq] at h
  rcases h with ((((h | h) | h) | h) | h) | h <;> subst h <;> decide

/-- Lower-casing preserves being all-whitespace. -/
lemma lower_all_ws {t : List Char} (h : ∀ c ∈ t, isWs c = true) :
    ∀ c ∈ lower t, isWs c = true := by
  intro c hc
  rw [lower, List.mem_map] at hc
  obtain ⟨d, hd, rfl⟩ := hc
  rw [isWs_toLower (h d hd)]
  exact h d hd

/-- A word-boundary pattern whose first character is not whitespace never
occurs in an all-whitespace text. -/
lemma wordOccurAux_all_ws {p0 : Char} (pr : List Char) (hp : isWs p0 = false) :
    ∀ (txt : List Char) (b : Bool), (∀ c ∈ txt, isWs c = true) →
      wordOccurAux (p0 :: pr) b txt = false := by
  intro txt
  induction txt with
  | nil => intro b _; rfl
  | cons c rest ih =>
    intro b h
    have hc : isWs c = true := h c (List.mem_cons_self c rest)
    have hpre : (p0 :: pr).isPrefixOf (c :: rest) = false := by
      rw [List.isPrefixOf_cons₂]
      have : (p0 == c) = false := by
        cases hb : p0 == c
        · rfl
        · exact absurd (eq_of_beq hb ▸ hp) (by simp [hc])
      simp [this]
    rw [wordOccurAux, hpre]
    simp only [Bool.and_false, Bool.false_and, Bool.false_or]
    exact ih (isWordChar c) (fun x hx => h x (List.mem_cons_of_mem c hx))

/-- A predicate singling out the patterns whose first character is not
whitespace (every word/phrase alternative of the source's regexes is one). -/
def headNotWs (p : List Char) : Bool :=
  match p with
  | [] => false
  | c :: _ => !isWs c

/-- No word of a lexicon of non-whitespace-headed patterns matches an
all-whitespace text (the `i` flag lower-cases the text first). -/
lemma testWords_all_ws {pats : List (List Char)} (hpats : pats.all headNotWs = true)
    {t : List Char} (h : ∀ c ∈ t, isWs c = true) : testWords pats t = false := by
  rw [testWords, List.any_eq_false]
  intro p hp
  rw [List.all_eq_true] at hpats
  have := hpats p hp
  match p, this with
  | c :: cs, hq =>
    have hc : isWs c = false := by simpa [headNotWs] using hq
    simp [testWord, wordOccurAux_all_ws cs hc (lower t) false (lower_all_ws h)]

/-- An all-whitespace text does not contain a non-whitespace character. -/
lemma contains_all_ws {t : List Char} (h : ∀ c ∈ t, isWs c = true) {x : Char}
    (hx : isWs x = false) : t.contains x = false := by
  cases hc : t.contains x
  · rfl
  · have hmem : x ∈ t := by
      rw [List.contains_eq_any_beq, List.any_eq_true] at hc
      obtain ⟨y, hy, hxy⟩ := hc
      exact (eq_of_beq hxy).symm ▸ hy
    exact absurd (h x hmem) (by simp [hx])

/-- A text whose JavaScript `trim()` is empty consists of whitespace only. -/
lemma jsTrim_all_ws {t : List Char} (h : jsTrim t = []) : ∀ c ∈ t, isWs c = true := by
  rw [jsTrim, List.reverse_eq_nil_iff, List.dropWhile_eq_nil_iff] at h
  intro c hc
  rw [← List.takeWhile_append_dropWhile isWs t, List.mem_append] at hc
  rcases hc with h1 | h2
  · exact List.mem_takeWhile_imp h1
  · exact h c (List.mem_reverse.2 h2)

/-- Splitting an all-whitespace text yields empty fields only. -/
lemma jsSplitAux_all_ws {cs : List Char} (h : ∀ c ∈ cs, isWs c = true) :
    ∀ b, ∀ f ∈ jsSplitAux cs b [], f = [] := by
  induction cs with
  | nil =>
    intro b f hf
    simpa [jsSplitAux] using hf
  | cons c rest ih =>
    intro b f hf
    have hc : isWs c = true := h c (List.mem_cons_self c rest)
    have hrest : ∀ x ∈ rest, isWs x = true := fun x hx => h x (List.mem_cons_of_mem c hx)
    cases b with
    | true =>
      rw [jsSplitAux, if_pos hc] at hf
      simp only [if_true] at hf
      exact ih hrest true f hf
    | false =>
      rw [jsSplitAux, if_pos hc] at hf
      simp only [Bool.false_eq_true, if_false] at hf
      rcases List.mem_cons.1 hf with h1 | h1
      · simpa using h1
      · exact ih hrest true f h1

/-- The default value of `getLastD` is irrelevant on a non-empty list. -/
lemma getLastD_irrel {l : List Char} (h : l ≠ []) (d1 d2 : Char) :
    l.getLastD d1 = l.getLastD d2 := by
  rw [List.getLastD_eq_getLast?, List.getLastD_eq_getLast?]
  cases hgl : l.getLast? with
  | none => exact absurd (List.getLast?_eq_none_iff.1 hgl) h
  | some x => rfl

/-- Discarding empty fields from the JavaScript split yields exactly the
whitespace-delimited tokens.  The invariant `lastWs = true → acc = []` holds
at every reachable state of the scan. -/
lemma jsSplitAux_filter (cs : List Char) :
    ∀ (b : Bool) (acc : List Char), (b = true → acc = []) →
      (jsSplitAux cs b acc).filter (fun f => !f.isEmpty) = splitTokensAux cs acc := by
  induction cs with
  | nil =>
    intro b acc _
    cases acc <;> simp [jsSplitAux, splitTokensAux]
  | cons c rest ih =>
    intro b acc hba
    by_cases hc : isWs c = true
    · cases b with
      | false =>
        rw [jsSplitAux, if_pos hc]
        simp only [Bool.false_eq_true, if_false]
        rw [splitTokensAux, if_pos hc]
        cases acc with
        | nil => simp [ih true [] (fun _ => rfl)]
        | cons a as =>
          rw [List.filter_cons]
          have hne : ((a :: as).reverse.isEmpty) = false := by
            simp
          simp [hne, ih true [] (fun _ => rfl)]
      | true =>
        have : acc = [] := hba rfl
        subst this
        rw [jsSplitAux, if_pos hc]
        simp only [if_true]
        rw [splitTokensAux, if_pos hc]
        simp [ih true [] (fun _ => rfl)]
    · rw [jsSplitAux, if_neg (by simp [hc]), splitTokensAux, if_neg (by simp [hc])]
      exact ih false (c :: acc) (by simp)

/-- When the text neither is empty nor starts nor ends inside a whitespace
run, the JavaScript split produces no empty field.  The two side conditions
on `acc`/`b` are the reachable-state invariants of the scan. -/
lemma jsSplitAux_no_empty (cs : List Char) :
    ∀ (b : Bool) (acc : List Char),
      (cs = [] → acc ≠ []) →
      (b = false → acc = [] → cs ≠ [] → isWs (cs.headD ' ') = false) →
      (cs = [] ∨ isWs (cs.getLastD ' ') = false) →
      [] ∉ jsSplitAux cs b acc := by
  induction cs with
  | nil =>
    intro b acc hacc _ _
    simp only [jsSplitAux, List.mem_singleton]
    intro hrev
    exact (hacc rfl) (by simpa using hrev.symm)
  | cons c rest ih =>
    intro b acc hacc hhead hlast
    have hlast' : isWs ((c :: rest).getLastD ' ') = false := by
      rcases hlast with h | h
      · exact absurd h (by simp)
      · exact h
    have hrest_ne : rest ≠ [] → isWs (rest.getLastD ' ') = false := by
      intro hne
      rw [List.getLastD_cons] at hlast'
      rw [← getLastD_irrel hne c ' ']
      exact hlast'
    by_cases hc : isWs c = true
    · have hrne : rest ≠ [] := by
        intro hr
        subst hr
        rw [List.getLastD_cons] at hlast'
        exact absurd hlast' (by simp [hc])
      cases b with
      | true =>
        rw [jsSplitAux, if_pos hc]
        simp only [if_true]
        exact ih true acc (fun hr => absurd hr hrne) (by intro h; cases h)
          (Or.inr (hrest_ne hrne))
      | false =>
        have haccne : acc ≠ [] := by
          intro ha
          have := hhead rfl ha (by simp)
          simp at this
          exact absurd hc (by simp [this])
        rw [jsSplitAux, if_pos hc]
        simp only [Bool.false_eq_true, if_false]
        intro hmem
        rcases List.mem_cons.1 hmem with h1 | h1
        · exact haccne (by simpa using h1.symm)
        · exact ih true [] (fun hr => absurd hr hrne) (by intro h; cases h)
            (Or.inr (hrest_ne hrne)) h1
    · rw [jsSplitAux, if_neg (by simp [hc])]
      exact ih false (c :: acc) (fun _ => by simp) (fun _ hce => absurd hce (by simp))
        (by
          cases hr : rest with
          | nil => exact Or.inl rfl
          | cons x xs => exact Or.inr (hr ▸ hrest_ne (by simp [hr])))

/-! ### Claim theorems -/

/-- C1 (counterexample): transcript ids are `Date.now()` readings, so two
successful appends within the same millisecond (clock reading 5 at both)
yield ids 5 and 5 — the later id is not strictly greater than the earlier
one, and the first allocated id is not 1. -/
theorem C1_counterexample :
    ((handleFinalTranscript 5 TMState.init "hello").2.map Transcription.id = some 5) ∧
    ((handleFinalTranscript 5 (handleFinalTranscript 5 TMState.init "hello").1 "world").2.map
        Transcription.id = some 5) ∧
    ¬((5 : Nat) < 5) ∧ (5 : Nat) ≠ 1 := by
  refine ⟨by decide, by decide, by decide, by decide⟩

/-- C1 (amended): a persisted transcript's id equals the wall-clock reading
(`Date.now()`) taken during the append, so ids of successful appends strictly
increase exactly when the clock strictly increases between them; the sequence
starts at the clock's value, not at 1. -/
theorem C1_id_is_clock (now1 now2 : Nat) (s1 s2 : TMState) (t1 t2 : String)
    (tr1 tr2 : Transcription)
    (h1 : (handleFinalTranscript now1 s1 t1).2 = some tr1)
    (h2 : (handleFinalTranscript now2 s2 t2).2 = some tr2) :
    tr1.id = now1 ∧ tr2.id = now2 ∧ (now1 < now2 → tr1.id < tr2.id) := by
  by_cases e1 : jsTrim t1.data = []
  · simp [handleFinalTranscript, e1] at h1
  · by_cases e2 : jsTrim t2.data = []
    · simp [handleFinalTranscript, e2] at h2
    · simp [handleFinalTranscript, e1, e2] at h1 h2
      subst h1
      subst h2
      exact ⟨rfl, rfl, fun h => h⟩

/-- Witness for `C1_id_is_clock` at clock readings 3 and 9. -/
theorem C1_id_is_clock_witness :
    ({ id := 3, user := "Unknown", text := "a", timestamp := 3,
       confidence := 1 } : Transcription).id = 3 ∧
    ({ id := 9, user := "Unknown", text := "b", timestamp := 9,
       confidence := 1 } : Transcription).id = 9 ∧
    ((3 : Nat) < 9 →
      ({ id := 3, user := "Unknown", text := "a", timestamp := 3,
         confidence := 1 } : Transcription).id <
        ({ id := 9, user := "Unknown", text := "b", timestamp := 9,
           confidence := 1 } : Transcription).id) :=
  C1_id_is_clock 3 9 TMState.init TMState.init "a" "b" _ _ (by decide) (by decide)

/-- C2: for a started session (continuation flag set), after any sequence of
caller/engine events that does not contain a `stop()` call an engine end
event schedules exactly one restart; after a sequence containing a `stop()`
it schedules zero; and the policy counts no retries — `n` consecutive end
events schedule `n` restarts. -/
theorem C2_restart_policy (s : TMState) (pre : List TMEvent)
    (hs : s.shouldContinue = true) :
    (TMEvent.stopCall ∉ pre → ((tmRun s pre).1.onEnd).2 = 1) ∧
    (TMEvent.stopCall ∈ pre → ((tmRun s pre).1.onEnd).2 = 0) ∧
    (∀ n : Nat, (tmRun s (List.replicate n TMEvent.engineEnd)).2 = n) := by
  refine ⟨fun hnot => ?_, fun hmem => ?_, fun n => tmRun_ends n s hs⟩
  · have := tmRun_shouldContinue pre s
    rw [TMState.onEnd]
    simp [this, hs, hnot]
  · have := tmRun_shouldContinue pre s
    rw [TMState.onEnd]
    simp [this, hmem]

/-- Witness for `C2_restart_policy`: from a started manager, an end after
`[engineEnd]` schedules one restart, an end after `[stopCall]` schedules
zero, and three consecutive end events schedule three restarts. -/
theorem C2_restart_policy_witness :
    ((tmRun { TMState.init with shouldContinue := true }
        [TMEvent.engineEnd]).1.onEnd).2 = 1 ∧
    ((tmRun { TMState.init with shouldContinue := true }
        [TMEvent.stopCall]).1.onEnd).2 = 0 ∧
    (tmRun { TMState.init with shouldContinue := true }
        (List.replicate 3 TMEvent.engineEnd)).2 = 3 := by
  obtain ⟨h1, h2, h3⟩ :=
    C2_restart_policy { TMState.init with shouldContinue := true } [TMEvent.engineEnd] rfl
  obtain ⟨g1, g2, g3⟩ :=
    C2_restart_policy { TMState.init with shouldContinue := true } [TMEvent.stopCall] rfl
  exact ⟨h1 (by decide), g2 (by decide), h3 3⟩

/-- C3: whenever both a question pattern and a command pattern match, the
result has `isQuestion = true`, `isCommand = true`, and `type = "command"`
(the command assignment comes after the question assignment and wins). -/
theorem C3_command_precedence (text : String)
    (hq : questionTest text.toList = true) (hc : commandTest text.toList = true) :
    (analyze text).isQuestion = true ∧ (analyze text).isCommand = true ∧
    (analyze text).type = "command" := by
  have hq' : questionTest text.data = true := hq
  have hc' : commandTest text.data = true := hc
  simp [analyze, hq', hc']

/-- Witness for `C3_command_precedence` at `"Please start the demo"`, which
matches both a question cue ("please") and a command verb ("start"). -/
theorem C3_command_precedence_witness :
    (analyze "Please start the demo").isQuestion = true ∧
    (analyze "Please start the demo").isCommand = true ∧
    (analyze "Please start the demo").type = "command" :=
  C3_command_precedence "Please start the demo" (by decide) (by decide)

/-- C4: emotion is selected by testing the positive lexicon, then the
negative lexicon, then `?`, then `!`, in that fixed order; the first match
wins and `neutral` is the default — in particular the positive lexicon beats
a `?` or `!` also present in the text. -/
theorem C4_emotion_priority (text : String) :
    (testWords positiveWords text.toList = true → (analyze text).emotion = "positive") ∧
    (testWords positiveWords text.toList = false →
      testWords negativeWords text.toList = true → (analyze text).emotion = "negative") ∧
    (testWords positiveWords text.toList = false →
      testWords negativeWords text.toList = false →
      text.toList.contains '?' = true → (analyze text).emotion = "question") ∧
    (testWords positiveWords text.toList = false →
      testWords negativeWords text.toList = false →
      text.toList.contains '?' = false →
      text.toList.contains '!' = true → (analyze text).emotion = "exclamation") ∧
    (testWords positiveWords text.toList = false →
      testWords negativeWords text.toList = false →
      text.toList.contains '?' = false →
      text.toList.contains '!' = false → (analyze text).emotion = "neutral") ∧
    ((analyze "This is great!").emotion = "positive" ∧
      (analyze "This is great!").hasSpeech = true) := by
  refine ⟨fun hp => ?_, fun hp hn => ?_, fun hp hn hq => ?_,
    fun hp hn hq he => ?_, fun hp hn hq he => ?_, by decide, by decide⟩
  · simp [analyze, emotionOf, emotionEntries, List.find?,
      show testWords positiveWords text.data = true from hp]
  · simp [analyze, emotionOf, emotionEntries, List.find?,
      show testWords positiveWords text.data = false from hp,
      show testWords negativeWords text.data = true from hn]
  · have hq' : '?' ∈ text.data := by simpa using hq
    simp [analyze, emotionOf, emotionEntries, List.find?,
      show testWords positiveWords text.data = false from hp,
      show testWords negativeWords text.data = false from hn, hq']
  · have hq' : ¬('?' ∈ text.data) := by simpa using hq
    have he' : '!' ∈ text.data := by simpa using he
    simp [analyze, emotionOf, emotionEntries, List.find?,
      show testWords positiveWords text.data = false from hp,
      show testWords negativeWords text.data = false from hn, hq', he']
  · have hq' : ¬('?' ∈ text.data) := by simpa using hq
    have he' : ¬('!' ∈ text.data) := by simpa using he
    simp [analyze, emotionOf, emotionEntries, List.find?,
      show testWords positiveWords text.data = false from hp,
      show testWords negativeWords text.data = false from hn, hq', he']

/-- Witness for `C4_emotion_priority`: one concrete text per priority level,
including a text containing both "great" and "?" that is classified
positive. -/
theorem C4_emotion_priority_witness :
    (analyze "Is this great?").emotion = "positive" ∧
    (analyze "so bad").emotion = "negative" ∧
    (analyze "ready now?").emotion = "question" ∧
    (analyze "wow!").emotion = "exclamation" ∧
    (analyze "plain words").emotion = "neutral" :=
  ⟨(C4_emotion_priority "Is this great?").1 (by decide),
   (C4_emotion_priority "so bad").2.1 (by decide) (by decide),
   (C4_emotion_priority "ready now?").2.2.1 (by decide) (by decide) (by decide),
   (C4_emotion_priority "wow!").2.2.2.1 (by decide) (by decide) (by decide) (by decide),
   (C4_emotion_priority "plain words").2.2.2.2.1 (by decide) (by decide) (by decide)
     (by decide)⟩

/-- C5: a text whose trimmed value is empty yields the all-default
classification — `hasSpeech = false`, `type = "statement"`,
`emotion = "neutral"`, `keywords = []`, `isQuestion = false`,
`isCommand = false`. -/
theorem C5_nospeech_defaults (text : String) (h : jsTrim text.toList = []) :
    (analyze text).hasSpeech = false ∧ (analyze text).type = "statement" ∧
    (analyze text).emotion = "neutral" ∧ (analyze text).keywords = [] ∧
    (analyze text).isQuestion = false ∧ (analyze text).isCommand = false := by
  have hws : ∀ c ∈ text.data, isWs c = true := jsTrim_all_ws h
  have hq1 : testWords questionWords1 text.data = false :=
    testWords_all_ws (by decide) hws
  have hq3 : testWords questionWords3 text.data = false :=
    testWords_all_ws (by decide) hws
  have hqm : List.contains text.data '?' = false := contains_all_ws hws (by decide)
  have hcm : testWords commandWords text.data = false :=
    testWords_all_ws (by decide) hws
  have hpos : testWords positiveWords text.data = false :=
    testWords_all_ws (by decide) hws
  have hneg : testWords negativeWords text.data = false :=
    testWords_all_ws (by decide) hws
  have hexc : List.contains text.data '!' = false := contains_all_ws hws (by decide)
  have hq : questionTest text.data = false := by
    simp only [questionTest, hq1, hq3, Bool.or_false, Bool.false_or]
    simpa using hqm
  have hqm' : ¬('?' ∈ text.data) := by simpa using hqm
  have hexc' : ¬('!' ∈ text.data) := by simpa using hexc
  have hkw : ∀ f ∈ jsSplitWs (lower text.data), f = [] :=
    jsSplitAux_all_ws (lower_all_ws hws) false
  have htrim : jsTrim text.data = [] := h
  refine ⟨?_, ?_, ?_, ?_, ?_, ?_⟩
  · simp [analyze, htrim]
  · simp only [analyze]
    rw [show commandTest text.toList = false from hcm,
      show questionTest text.toList = false from hq]
    rfl
  · simp [analyze, emotionOf, emotionEntries, List.find?, hpos, hneg, hqm', hexc']
  · simp only [analyze]
    rw [List.filter_eq_nil_iff]
    intro f hf
    rw [hkw f hf]
    decide
  · simp [analyze, hq]
  · simp [analyze, commandTest, hcm]

/-- Witness for `C5_nospeech_defaults` at the empty string. -/
theorem C5_nospeech_defaults_witness :
    (analyze "").hasSpeech = false ∧ (analyze "").type = "statement" ∧
    (analyze "").emotion = "neutral" ∧ (analyze "").keywords = [] ∧
    (analyze "").isQuestion = false ∧ (analyze "").isCommand = false :=
  C5_nospeech_defaults "" (by decide)

/-- C6: after `stop()` returns, no pending sampling tick fires a level
callback (every tick checks the capturing flag before doing any work), no
tick reschedules itself, and every track of the owned stream ends in a
stopped state. -/
theorem C6_stop_guarantee (s : ACState) (pending : List (List Nat)) (bins : List Nat) :
    runTicks (ACState.stop s).1 pending = [] ∧
    (monitorTick (ACState.stop s).1 bins).2.1 = none ∧
    (monitorTick (ACState.stop s).1 bins).2.2 = false ∧
    (ACState.stop s).2.all (fun b => b) = true := by
  have hcap := ACState.stop_not_capturing s
  refine ⟨runTicks_not_capturing hcap pending, ?_, ?_, ?_⟩
  · rw [monitorTick_not_capturing hcap]
  · rw [monitorTick_not_capturing hcap]
  · unfold ACState.stop
    cases h : s.streamTracks with
    | none => rfl
    | some tracks => simp [List.all_eq_true]

/-- C7 (counterexample): `"".split(/\s+/)` is `[""]`, so the empty text has
`wordCount = 1` while it has zero whitespace-delimited tokens — the claimed
equality fails at the empty string. -/
theorem C7_counterexample :
    (analyze "").wordCount = 1 ∧ tokenCount "".toList = 0 ∧
    (analyze "").wordCount ≠ tokenCount "".toList := by
  refine ⟨by decide, by decide, by decide⟩

/-- C7 (amended): `wordCount` is the length of the JavaScript split, which
equals the number of whitespace-delimited tokens whenever the text is
non-empty and neither starts nor ends with a whitespace character; an empty
field for a leading or trailing whitespace run (or the empty text) inflates
the count otherwise, e.g. `analyze ""` has `wordCount = 1`. -/
theorem C7_wordCount_tokens (text : String)
    (hh : isWs (text.toList.headD ' ') = false)
    (hl : isWs (text.toList.getLastD ' ') = false) :
    (analyze text).wordCount = tokenCount text.toList := by
  have hne : [] ∉ jsSplitWs text.data :=
    jsSplitAux_no_empty text.data false []
      (fun ht => absurd hh (by rw [show text.toList = text.data from rfl, ht]; decide))
      (fun _ _ _ => hh)
      (Or.inr hl)
  have hfil : (jsSplitWs text.data).filter (fun f => !f.isEmpty) = jsSplitWs text.data := by
    apply List.filter_eq_self.mpr
    intro f hf
    cases f with
    | nil => exact absurd hf hne
    | cons x xs => rfl
  have hts : (jsSplitWs text.data).filter (fun f => !f.isEmpty) = splitTokens text.data :=
    jsSplitAux_filter text.data false [] (fun _ => rfl)
  show (jsSplitWs text.data).length = (splitTokens text.data).length
  rw [← hfil, hts]

/-- Witness for `C7_wordCount_tokens` at `"a bb  ccc"`. -/
theorem C7_wordCount_tokens_witness :
    isWs ("a bb  ccc".toList.headD ' ') = false ∧
    isWs ("a bb  ccc".toList.getLastD ' ') = false ∧
    (analyze "a bb  ccc").wordCount = tokenCount "a bb  ccc".toList :=
  ⟨by decide, by decide, C7_wordCount_tokens "a bb  ccc" (by decide) (by decide)⟩

/-- C8: keyword extraction keeps, from the whitespace-delimited tokens of
the lower-cased text, exactly those of length strictly greater than 4, in
order and with duplicates, with no punctuation stripping — and
`classify("What time is the meeting?")` yields `type = "question"`,
`isQuestion = true`, `keywords = ["meeting?"]`. -/
theorem C8_keywords (text : String) :
    (analyze text).keywords =
      (splitTokens (lower text.toList)).filter (fun w => w.length > 4) ∧
    ((analyze "What time is the meeting?").type = "question" ∧
     (analyze "What time is the meeting?").isQuestion = true ∧
     (analyze "What time is the meeting?").keywords = ["meeting?".toList]) := by
  refine ⟨?_, by decide, by decide, by decide⟩
  show (jsSplitWs (lower text.data)).filter (fun w => w.length > 4) =
    (splitTokens (lower text.data)).filter (fun w => w.length > 4)
  have hts : (jsSplitWs (lower text.data)).filter (fun f => !f.isEmpty) =
      splitTokens (lower text.data) :=
    jsSplitAux_filter (lower text.data) false [] (fun _ => rfl)
  rw [← hts, List.filter_filter]
  apply List.filter_congr
  intro a _
  cases a with
  | nil => rfl
  | cons x xs => simp

/-- C9: `handleFinalTranscript` on text whose trimmed value is empty is an
atomic no-op — the state is returned unchanged and no callback fires; on text
with a non-empty trimmed value exactly one transcript is appended and
delivered to the callback. -/
theorem C9_empty_append_noop (now : Nat) (s : TMState) (text : String) :
    (jsTrim text.toList = [] → handleFinalTranscript now s text = (s, none)) ∧
    (jsTrim text.toList ≠ [] →
      ∃ tr : Transcription,
        handleFinalTranscript now s text =
          ({ s with transcriptions := s.transcriptions ++ [tr] }, some tr)) := by
  constructor
  · intro h
    have h' : jsTrim text.data = [] := h
    simp [handleFinalTranscript, h']
  · intro h
    have h' : ¬jsTrim text.data = [] := h
    refine ⟨{ id := now, user := s.currentUser.getD "Unknown", text := text,
              timestamp := now, confidence := 1 }, ?_⟩
    simp [handleFinalTranscript, h']

/-- Witness for `C9_empty_append_noop`: appending `"   "` changes nothing and
fires no callback; appending `"hi"` appends exactly one record. -/
theorem C9_empty_append_noop_witness :
    handleFinalTranscript 7 TMState.init "   " = (TMState.init, none) ∧
    ∃ tr : Transcription,
      handleFinalTranscript 7 TMState.init "hi" =
        ({ TMState.init with transcriptions := [] ++ [tr] }, some tr) :=
  ⟨(C9_empty_append_noop 7 TMState.init "   ").1 (by decide),
   (C9_empty_append_noop 7 TMState.init "hi").2 (by decide)⟩

/-- C10: `stop()` is safe and idempotent at the interface — on the
constructor state it is a no-op releasing nothing, a second `stop()` leaves
the released state unchanged and releases nothing, and after any `stop()`
the monitor is not capturing with the stream and context handles null. -/
theorem C10_stop_idempotent (s : ACState) :
    ACState.stop (ACState.stop s).1 = ((ACState.stop s).1, []) ∧
    (ACState.stop s).1.isCapturing = false ∧
    (ACState.stop s).1.streamTracks = none ∧
    (ACState.stop s).1.audioContext = false ∧
    ACState.stop ACState.init = (ACState.init, []) := by
  obtain ⟨st, ac, an, cap⟩ := s
  cases st <;> exact ⟨rfl, rfl, rfl, rfl, rfl⟩

end ZoomSDK
